import Mathlib

/-!
Verification development for the Nexus-Mind distributed vector store.

This file gives a shallow embedding, in Lean 4, of the parts of the Go
source that the specification's claims talk about, and proves or refutes
each claim against that embedding.

Modelling conventions, applied uniformly:

* Go `float32`/`float64` values are modelled as exact rationals (`ℚ`).
  Where a kernel can return the IEEE value `+Inf` (dimension-mismatch
  sentinels), the codomain is `WithTop ℚ`, with `⊤` playing the role of
  `+Inf`.  Transcendental library calls (`math.Sqrt`, `math.Exp`) are
  abstracted as function parameters, since the claims under study never
  depend on their numeric values.
* Go maps are modelled as association lists.  Go's map iteration order is
  unspecified; wherever a theorem's truth could depend on it, the theorem
  is stated up to permutation of the association list (see the ring
  determinism theorem), so that any iteration order yields the same
  observable result.
* Goroutines and locks are not modelled; each Go method that the claims
  mention is translated as a pure state-transition function on the data
  it reads and writes under its lock.  The random number drawn by
  `rand.Float64()` inside the retry-backoff computation is passed in as
  an explicit parameter `u` with `0 ≤ u < 1`.
-/

/-! ## Generic association-list operations (model of Go maps) -/

/-- Lookup in an association list (first matching key), the model of a Go
map read `m[k]` paired with its `ok` flag. -/
def alLookup {κ ν : Type} [DecidableEq κ] (k : κ) (l : List (κ × ν)) : Option ν :=
  (l.find? (fun p => decide (p.1 = k))).map Prod.snd

/-- Lookup with a default, the model of a Go map read `m[k]` that yields
the zero value when the key is absent. -/
def alLookupD {κ ν : Type} [DecidableEq κ] (d : ν) (k : κ) (l : List (κ × ν)) : ν :=
  (alLookup k l).getD d

/-- Deletion of a key, the model of Go `delete(m, k)`. -/
def alErase {κ ν : Type} [DecidableEq κ] (k : κ) (l : List (κ × ν)) : List (κ × ν) :=
  l.filter (fun p => decide (p.1 ≠ k))

/-- Update/insert of a key, the model of Go `m[k] = v`. -/
def alUpdate {κ ν : Type} [DecidableEq κ] (k : κ) (v : ν) (l : List (κ × ν)) :
    List (κ × ν) :=
  alErase k l ++ [(k, v)]

/-- The keys of an association list. -/
def alKeys {κ ν : Type} (l : List (κ × ν)) : List κ := l.map Prod.fst

/-- Left-fold sum of a list of rationals, the model of a Go `+=`
accumulation loop starting from the zero value. -/
def qsum (l : List ℚ) : ℚ := l.foldl (fun a b => a + b) 0

/-! ## Distance kernels (src/src/vector/distance.go, src/unnamed/part_010)

The four metric kernels.  Each takes the two vectors; `CosineSimilarity`
and `EuclideanDistance` additionally take the abstracted `math.Sqrt` as a
parameter `sqrt`.  The codomain `WithTop ℚ` has `⊤` for IEEE `+Inf`. -/

/-- DistanceMetric enumeration (src/src/models/vector_collection.go). -/
inductive DistanceMetric where
  | Cosine
  | DotProduct
  | Euclidean
  | Manhattan
deriving DecidableEq

/-- CosineSimilarity (distance.go lines 36-53): `-1` sentinel on dimension
mismatch, `0` for a zero vector, otherwise `dot/(√normA·√normB)`. -/
def CosineSimilarity (sqrt : ℚ → ℚ) (a b : List ℚ) : WithTop ℚ :=
  if a.length ≠ b.length then ((-1 : ℚ) : WithTop ℚ)
  else
    let dotProduct := qsum (List.zipWith (fun x y => x * y) a b)
    let normA := qsum (a.map (fun x => x * x))
    let normB := qsum (b.map (fun x => x * x))
    if normA = 0 ∨ normB = 0 then ((0 : ℚ) : WithTop ℚ)
    else ((dotProduct / (sqrt normA * sqrt normB) : ℚ) : WithTop ℚ)

/-- DotProduct (distance.go lines 56-67): returns `0` on dimension
mismatch (its comment labels that the error case), else `∑ aᵢ·bᵢ`. -/
def DotProduct (a b : List ℚ) : WithTop ℚ :=
  if a.length ≠ b.length then ((0 : ℚ) : WithTop ℚ)
  else ((qsum (List.zipWith (fun x y => x * y) a b) : ℚ) : WithTop ℚ)

/-- EuclideanDistance (distance.go lines 70-82): `+Inf` sentinel on
dimension mismatch, else `√∑(aᵢ−bᵢ)²`. -/
def EuclideanDistance (sqrt : ℚ → ℚ) (a b : List ℚ) : WithTop ℚ :=
  if a.length ≠ b.length then (⊤ : WithTop ℚ)
  else ((sqrt (qsum (List.zipWith (fun x y => (x - y) * (x - y)) a b)) : ℚ) : WithTop ℚ)

/-- ManhattanDistance (distance.go lines 85-96): `+Inf` sentinel on
dimension mismatch, else `∑|aᵢ−bᵢ|`. -/
def ManhattanDistance (a b : List ℚ) : WithTop ℚ :=
  if a.length ≠ b.length then (⊤ : WithTop ℚ)
  else ((qsum (List.zipWith (fun x y => |x - y|) a b) : ℚ) : WithTop ℚ)

/-- C8 counterexample: on a dimension mismatch the dot-product kernel
returns the rational value 0, not the claimed sentinel −1 (the code path
`if len(a) != len(b) { return 0 }` of distance.go line 58). -/
theorem DotProduct_mismatch_cex :
    DotProduct [(1 : ℚ)] [] = ((0 : ℚ) : WithTop ℚ) ∧
      ((0 : ℚ) : WithTop ℚ) ≠ ((-1 : ℚ) : WithTop ℚ) := by
  refine ⟨rfl, ?_⟩
  decide

/-- C8 (amended): on a dimension mismatch, cosine similarity returns the
sentinel −1, the dot product returns 0, and the Euclidean and Manhattan
distances return +∞, for every abstracted square-root function. -/
theorem kernels_dimension_mismatch (sqrt : ℚ → ℚ) (a b : List ℚ)
    (h : a.length ≠ b.length) :
    CosineSimilarity sqrt a b = ((-1 : ℚ) : WithTop ℚ) ∧
      DotProduct a b = ((0 : ℚ) : WithTop ℚ) ∧
      EuclideanDistance sqrt a b = (⊤ : WithTop ℚ) ∧
      ManhattanDistance a b = (⊤ : WithTop ℚ) := by
  refine ⟨?_, ?_, ?_, ?_⟩ <;> simp [CosineSimilarity, DotProduct,
    EuclideanDistance, ManhattanDistance, h]

/-- C8 witness: the amended statement instantiated at `a = [1]`, `b = []`
with the zero square-root stub. -/
theorem kernels_dimension_mismatch_witness :
    ([(1 : ℚ)].length ≠ ([] : List ℚ).length) ∧
      (CosineSimilarity (fun _ => 0) [(1 : ℚ)] [] = ((-1 : ℚ) : WithTop ℚ) ∧
        DotProduct [(1 : ℚ)] [] = ((0 : ℚ) : WithTop ℚ) ∧
        EuclideanDistance (fun _ => 0) [(1 : ℚ)] [] = (⊤ : WithTop ℚ) ∧
        ManhattanDistance [(1 : ℚ)] [] = (⊤ : WithTop ℚ)) :=
  ⟨by decide, kernels_dimension_mismatch (fun _ => 0) [(1 : ℚ)] [] (by decide)⟩

/-! ## Transfer tasks and retry policy (src/unnamed/part_010, transfer service)

`TaskState`, `RetryConfig`, the backoff computation `CalculateBackoff`, and
the post-execution state transition of `TransferService.executeTask`
(lines 1126-1180).  The transfer itself is simulated in the source; here
its outcome is the Boolean parameter `success`.  `u` is the value drawn by
`rand.Float64()` inside `CalculateBackoff`, and `now` stands for the
`time.Now().UnixNano()` reads. -/

/-- TaskState (part_010 lines 892-900). -/
inductive TaskState where
  | Pending
  | InProgress
  | Completed
  | Failed
  | Retrying
deriving DecidableEq

/-- RetryConfig (part_010 lines 946-952); the millisecond fields are Go
ints, the multiplier and jitter factor are float32 values modelled as ℚ. -/
structure RetryConfig where
  maxRetries : ℕ
  initialBackoffMs : ℤ
  backoffMultiplier : ℚ
  maxBackoffMs : ℤ
  jitterFactor : ℚ

/-- DefaultRetryConfig (part_010 lines 955-963): 3 retries, 1 s initial,
multiplier 2, 30 s cap, jitter 0.2. -/
def DefaultRetryConfig : RetryConfig :=
  { maxRetries := 3
    initialBackoffMs := 1000
    backoffMultiplier := 2
    maxBackoffMs := 30000
    jitterFactor := 1 / 5 }

/-- The fields of TransferTask (part_010 lines 920-933) that the retry
claims read and write.  Sub-tasks and the vector-id payload do not enter
the retry transition and are elided. -/
structure TransferTask where
  id : String
  sourceNodeID : String
  destNodeID : String
  priority : ℤ
  state : TaskState
  attemptCount : ℕ
  lastError : String
  updatedAt : ℤ
deriving DecidableEq


/-- Truncation of a rational toward zero, the model of Go's `int64(f)`
conversion from a finite float. -/
def ratTrunc (q : ℚ) : ℤ := if q < 0 then -(⌊-q⌋) else ⌊q⌋

/-- CalculateBackoff (part_010 lines 1021-1040), in nanoseconds: zero once
the attempt count has reached the retry limit, otherwise
`initial · multiplier ^ attemptCount`, capped at the maximum by the inner
conditional, scaled by the jitter term `1 − jitter/2 + u·jitter`, and
truncated to whole milliseconds by the
`time.Duration(int64(backoffMs)) * time.Millisecond` conversion. -/
def CalculateBackoff (t : TransferTask) (config : RetryConfig) (u : ℚ) : ℤ :=
  if config.maxRetries ≤ t.attemptCount then 0
  else
    ratTrunc
      ((if (config.maxBackoffMs : ℚ) <
            (config.initialBackoffMs : ℚ) * config.backoffMultiplier ^ t.attemptCount
          then (config.maxBackoffMs : ℚ)
          else (config.initialBackoffMs : ℚ) * config.backoffMultiplier ^ t.attemptCount) *
        (1 - config.jitterFactor / 2 + u * config.jitterFactor)) * 1000000

/-- The state transition performed by `TransferService.executeTask`
(part_010 lines 1126-1180) on one task: mark in-progress and increment the
attempt counter, then according to the transfer outcome `success` settle
to Completed, or to Retrying with a scheduled re-enqueue delay
(`time.AfterFunc(backoff, …)`, returned here as `some delay`), or to
Failed.  The queue-drain bookkeeping does not touch the task itself. -/
def executeTaskStep (config : RetryConfig) (t : TransferTask) (success : Bool)
    (u : ℚ) (now : ℤ) : TransferTask × Option ℤ :=
  let t1 := { t with state := TaskState.InProgress, attemptCount := t.attemptCount + 1,
                     updatedAt := now }
  if success then
    ({ t1 with state := TaskState.Completed, updatedAt := now }, none)
  else if t1.attemptCount < config.maxRetries then
    ({ t1 with state := TaskState.Retrying, updatedAt := now },
      some (CalculateBackoff t1 config u))
  else
    ({ t1 with state := TaskState.Failed, updatedAt := now }, none)

/-- A transfer task about to make its first attempt. -/
def sampleTask : TransferTask :=
  { id := "task-1", sourceNodeID := "n1", destNodeID := "n2", priority := 1,
    state := TaskState.Pending, attemptCount := 0, lastError := "", updatedAt := 0 }

/-- A transfer task about to make its third attempt. -/
def boundaryTask : TransferTask :=
  { id := "task-9", sourceNodeID := "n1", destNodeID := "n2", priority := 1,
    state := TaskState.Pending, attemptCount := 2, lastError := "", updatedAt := 0 }

/-- C5 counterexample: a task failing its third attempt under the default
configuration (max-retries = 3).  Its attempt count, 3, satisfies
`attempt-count ≤ max-retries`, yet the code transitions it to Failed, not
Retrying, because the source tests the strict inequality
`AttemptCount < MaxRetries` after the increment. -/
theorem executeTask_boundary_cex :
    (executeTaskStep DefaultRetryConfig boundaryTask false 0 0).1.state = TaskState.Failed ∧
      (executeTaskStep DefaultRetryConfig boundaryTask false 0 0).1.attemptCount ≤
        DefaultRetryConfig.maxRetries ∧
      TaskState.Failed ≠ TaskState.Retrying := by
  refine ⟨?_, ?_, ?_⟩ <;> decide

/-- The capped backoff conditional computes the minimum of the raw
exponential backoff and the configured maximum. -/
theorem CalculateBackoff_eq (t : TransferTask) (config : RetryConfig) (u : ℚ)
    (h : t.attemptCount < config.maxRetries) :
    CalculateBackoff t config u =
      ratTrunc
        (min ((config.initialBackoffMs : ℚ) * config.backoffMultiplier ^ t.attemptCount)
            ((config.maxBackoffMs : ℚ)) *
          (1 - config.jitterFactor / 2 + u * config.jitterFactor)) * 1000000 := by
  rw [CalculateBackoff, if_neg (by omega)]
  rcases le_or_lt ((config.initialBackoffMs : ℚ) * config.backoffMultiplier ^ t.attemptCount)
      ((config.maxBackoffMs : ℚ)) with hle | hgt
  · rw [if_neg (not_lt.mpr hle), min_eq_left hle]
  · rw [if_pos hgt, min_eq_right hgt.le]

/-- C5 (amended): on a failed execution attempt, if the (incremented)
attempt count is strictly below max-retries the task transitions to
Retrying and is re-enqueued after
`min(initial·multiplier^attempt, max) · (1 − jitter/2 + u·jitter)`
milliseconds truncated to a whole number of milliseconds, where
`u ∈ [0, 1)` is the uniform draw; otherwise it transitions to Failed with
no re-enqueue. -/
theorem executeTask_retry_policy (config : RetryConfig) (t : TransferTask)
    (u : ℚ) (now : ℤ) (h0 : 0 ≤ u) (h1 : u < 1) :
    (t.attemptCount + 1 < config.maxRetries →
      (executeTaskStep config t false u now).1.state = TaskState.Retrying ∧
        (executeTaskStep config t false u now).2 =
          some (ratTrunc
              (min ((config.initialBackoffMs : ℚ) *
                    config.backoffMultiplier ^ (t.attemptCount + 1))
                  ((config.maxBackoffMs : ℚ)) *
                (1 - config.jitterFactor / 2 + u * config.jitterFactor)) * 1000000)) ∧
      (config.maxRetries ≤ t.attemptCount + 1 →
        (executeTaskStep config t false u now).1.state = TaskState.Failed ∧
          (executeTaskStep config t false u now).2 = none) := by
  constructor
  · intro hlt
    constructor
    · simp [executeTaskStep, hlt]
    · have := CalculateBackoff_eq
        { t with state := TaskState.InProgress, attemptCount := t.attemptCount + 1,
                 updatedAt := now } config u (by simpa using hlt)
      simp only [executeTaskStep, Bool.false_eq_true, if_false, if_pos hlt]
      simpa using congrArg Option.some this
  · intro hge
    have hnlt : ¬ t.attemptCount + 1 < config.maxRetries := by omega
    refine ⟨?_, ?_⟩ <;> simp [executeTaskStep, hnlt]

/-- C5 witness: the amended policy instantiated at the default
configuration, a fresh task, and the uniform draw `u = 1/2`. -/
theorem executeTask_retry_policy_witness :
    (0 : ℚ) ≤ 1 / 2 ∧ (1 / 2 : ℚ) < 1 ∧
      ((sampleTask.attemptCount + 1 < DefaultRetryConfig.maxRetries →
        (executeTaskStep DefaultRetryConfig sampleTask false (1 / 2) 0).1.state =
            TaskState.Retrying ∧
          (executeTaskStep DefaultRetryConfig sampleTask false (1 / 2) 0).2 =
            some (ratTrunc
                (min ((DefaultRetryConfig.initialBackoffMs : ℚ) *
                      DefaultRetryConfig.backoffMultiplier ^ (sampleTask.attemptCount + 1))
                    ((DefaultRetryConfig.maxBackoffMs : ℚ)) *
                  (1 - DefaultRetryConfig.jitterFactor / 2 +
                    (1 / 2) * DefaultRetryConfig.jitterFactor)) * 1000000)) ∧
        (DefaultRetryConfig.maxRetries ≤ sampleTask.attemptCount + 1 →
          (executeTaskStep DefaultRetryConfig sampleTask false (1 / 2) 0).1.state =
              TaskState.Failed ∧
            (executeTaskStep DefaultRetryConfig sampleTask false (1 / 2) 0).2 = none)) :=
  ⟨by norm_num, by norm_num,
    executeTask_retry_policy DefaultRetryConfig sampleTask (1 / 2) 0
      (by norm_num) (by norm_num)⟩

/-! ## Membership gate (src/unnamed/part_011, MembershipService)

`CheckStabilization` (lines 190-218) under its mutex.  Times are int64
nanoseconds; `now` is the `time.Now().UnixNano()` read.  The node table is
not read by this method and is elided from the state.  The hand-off
`go ms.coordinator.TriggerRebalancing(events)` is modelled by the third
component of the result: the batch of events handed to the coordinator,
if any. -/

/-- ChangeType (part_011 lines 9-14). -/
inductive ChangeType where
  | NodeJoined
  | NodeLeft
deriving DecidableEq

/-- ClusterChangeEvent (part_011 lines 28-32). -/
structure ClusterChangeEvent where
  type : ChangeType
  nodeID : String
  timestamp : ℤ
deriving DecidableEq

/-- MembershipConfig (part_011 lines 35-38). -/
structure MembershipConfig where
  stabilizationPeriodSeconds : ℤ
  maxPendingEvents : ℤ

/-- The fields of MembershipService (part_011 lines 49-56) read and
written by `CheckStabilization`: the pending event queue, the
last-event-time watermark, and whether a coordinator is attached
(`ms.coordinator != nil`). -/
structure MembershipState where
  config : MembershipConfig
  pendingEvents : List ClusterChangeEvent
  lastEventTime : ℤ
  coordinatorSet : Bool

/-- CheckStabilization (part_011 lines 190-218): if less than the
stabilization window has elapsed since the last membership event, report
not-stabilized and change nothing; otherwise, if events are pending and a
coordinator is attached, clear the queue and hand the whole batch to the
coordinator for a single rebalance trigger. -/
def CheckStabilization (ms : MembershipState) (now : ℤ) :
    Bool × MembershipState × Option (List ClusterChangeEvent) :=
  if now - ms.lastEventTime < ms.config.stabilizationPeriodSeconds * 1000000000 then
    (false, ms, none)
  else if 0 < ms.pendingEvents.length ∧ ms.coordinatorSet = true then
    (true, { ms with pendingEvents := [] }, some ms.pendingEvents)
  else
    (false, ms, none)

/-- C6: with a non-empty pending queue and an attached coordinator, no
trigger fires while `now − last-event-time` is below the stabilization
window and the queue is untouched; once it reaches the window, exactly one
trigger is handed over carrying every pending event, and the pending
queue is left empty. -/
theorem checkStabilization_gate (ms : MembershipState) (now : ℤ)
    (hpend : ms.pendingEvents ≠ []) (hcoord : ms.coordinatorSet = true) :
    (now - ms.lastEventTime < ms.config.stabilizationPeriodSeconds * 1000000000 →
      CheckStabilization ms now = (false, ms, none)) ∧
      (ms.config.stabilizationPeriodSeconds * 1000000000 ≤ now - ms.lastEventTime →
        CheckStabilization ms now =
          (true, { ms with pendingEvents := [] }, some ms.pendingEvents)) := by
  constructor
  · intro h
    simp [CheckStabilization, h]
  · intro h
    have hlen : 0 < ms.pendingEvents.length := List.length_pos.mpr hpend
    rw [CheckStabilization, if_neg (not_lt.mpr h), if_pos ⟨hlen, hcoord⟩]

/-- The spec's S3 scenario as a membership state: three pending events,
a 30 s window, watermark 0, coordinator attached. -/
def sampleMembership : MembershipState :=
  { config := { stabilizationPeriodSeconds := 30, maxPendingEvents := 100 },
    pendingEvents := [⟨ChangeType.NodeJoined, "n2", 1⟩,
      ⟨ChangeType.NodeJoined, "n3", 2⟩, ⟨ChangeType.NodeLeft, "n2", 3⟩],
    lastEventTime := 0, coordinatorSet := true }

/-- C6 witness: the gate theorem instantiated at the S3 state checked at
20 s: the first conjunct forbids a trigger there, the (vacuous at this
instant) second conjunct describes the single full-batch trigger. -/
theorem checkStabilization_gate_witness :
    sampleMembership.pendingEvents ≠ [] ∧
      ((20000000000 - sampleMembership.lastEventTime <
          sampleMembership.config.stabilizationPeriodSeconds * 1000000000 →
        CheckStabilization sampleMembership 20000000000 = (false, sampleMembership, none)) ∧
        (sampleMembership.config.stabilizationPeriodSeconds * 1000000000 ≤
            20000000000 - sampleMembership.lastEventTime →
          CheckStabilization sampleMembership 20000000000 =
            (true, { sampleMembership with pendingEvents := [] },
              some sampleMembership.pendingEvents))) :=
  ⟨by decide, checkStabilization_gate sampleMembership 20000000000 (by decide) rfl⟩

/-! ## Rebalance coordinator (src/unnamed/part_011, Coordinator)

`TriggerRebalancing` (lines 363-392).  The source records the operation,
then — in place of planning and submitting transfer tasks — immediately
stamps it completed (its own comment: "In a real implementation, this
would start the rebalancing process.  For now, just set it as
completed").  The second component of the result is the list of task
identifiers submitted to the transfer service, which is empty. -/

/-- Operation status strings (part_011 lines 290-295). -/
def OpPending : String := "pending"

/-- Operation status string for a completed operation. -/
def OpCompleted : String := "completed"

/-- RebalanceOperation (part_011 lines 314-325); the metrics bag is
elided.  `taskCount`, `completedTasks` and `failedTasks` keep their Go
zero values throughout `TriggerRebalancing`. -/
structure RebalanceOperation where
  id : String
  startTime : ℤ
  endTime : ℤ
  status : String
  events : List ClusterChangeEvent
  taskCount : ℤ
  completedTasks : ℤ
  failedTasks : ℤ
deriving DecidableEq

/-- TriggerRebalancing (part_011 lines 363-392): create the operation
with status pending, record it, then immediately overwrite the status
with completed; no ring diff is computed and no transfer task is
submitted.  Returns the recorded operation and the (empty) list of task
identifiers handed to the transfer service. -/
def TriggerRebalancing (events : List ClusterChangeEvent) (opID : String) (now : ℤ) :
    RebalanceOperation × List String :=
  let op : RebalanceOperation :=
    { id := opID, startTime := now, endTime := 0, status := OpPending, events := events,
      taskCount := 0, completedTasks := 0, failedTasks := 0 }
  let op := { op with status := OpCompleted, endTime := now }
  (op, [])

/-- C7: evaluating `TriggerRebalancing` at a concrete single-event batch
shows the recorded operation is already in status completed with zero
tasks, and no task was submitted to the orchestrator — the rebalancing
body is an acknowledged stub, so completion does not wait for any task. -/
theorem triggerRebalancing_stub_behavior :
    (TriggerRebalancing [⟨ChangeType.NodeJoined, "n2", 0⟩] "rebalance-1" 0).1.status =
        OpCompleted ∧
      (TriggerRebalancing [⟨ChangeType.NodeJoined, "n2", 0⟩] "rebalance-1" 0).1.taskCount = 0 ∧
      (TriggerRebalancing [⟨ChangeType.NodeJoined, "n2", 0⟩] "rebalance-1" 0).2 = [] ∧
      OpCompleted ≠ OpPending := by
  refine ⟨rfl, rfl, rfl, ?_⟩
  decide

/-! ## Token ring (src/unnamed/part_010, TokenRing, lines 224-454)

The ring state.  Tokens are md5-derived 64-bit values; the digest
`hashKey` (lines 364-367) is abstracted as a parameter
`hash : String → ℕ`, the only use the ring makes of md5.  The two Go maps
are association lists; `sortedTokens` mirrors the Go slice. -/

/-- TokenRing (part_010 lines 225-232). -/
structure TokenRing where
  tokens : List (ℕ × String)
  sortedTokens : List ℕ
  nodeTokens : List (String × List ℕ)
  virtualNodes : ℕ
  replicationFactor : ℕ
deriving DecidableEq

/-- NewTokenRing (part_010 lines 235-243). -/
def NewTokenRing (virtualNodes replicationFactor : ℕ) : TokenRing :=
  { tokens := [], sortedTokens := [], nodeTokens := [],
    virtualNodes := virtualNodes, replicationFactor := replicationFactor }

/-- updateSortedTokens (part_010 lines 294-302): rebuild `sortedTokens`
as the sorted list of the token map's keys.  The Go code enumerates the
map in whatever order the runtime yields and then sorts; sorting makes
the result independent of that order (proved below). -/
def updateSortedTokens (r : TokenRing) : TokenRing :=
  { r with sortedTokens := List.insertionSort (· ≤ ·) (alKeys r.tokens) }

/-- AddNode (part_010 lines 246-268): a no-op for a known node; otherwise
create `virtualNodes` tokens by hashing `nodeID ++ ":" ++ i`, write each
into the token map (later writes win on collision), record the node's
token list, and rebuild the sorted tokens. -/
def AddNode (hash : String → ℕ) (r : TokenRing) (nodeID : String) : TokenRing :=
  if nodeID ∈ alKeys r.nodeTokens then r
  else
    let nodeTokenList :=
      (List.range r.virtualNodes).map (fun i => hash (nodeID ++ ":" ++ toString i))
    let tokens' := nodeTokenList.foldl (fun acc token => alUpdate token nodeID acc) r.tokens
    updateSortedTokens
      { r with tokens := tokens',
               nodeTokens := alUpdate nodeID nodeTokenList r.nodeTokens }

/-- RemoveNode (part_010 lines 271-290): a no-op for an unknown node;
otherwise delete each of the node's recorded tokens from the token map,
drop the node's entry, and rebuild the sorted tokens. -/
def RemoveNode (r : TokenRing) (nodeID : String) : TokenRing :=
  match alLookup nodeID r.nodeTokens with
  | none => r
  | some tks =>
      updateSortedTokens
        { r with tokens := tks.foldl (fun acc token => alErase token acc) r.tokens,
                 nodeTokens := alErase nodeID r.nodeTokens }

/-- The node owning the token at position `j` of the sorted token list:
`r.tokens[r.sortedTokens[j]]`, with the Go zero values as defaults. -/
def nodeAt (r : TokenRing) (j : ℕ) : String :=
  alLookupD "" (r.sortedTokens.getD j 0) r.tokens

/-- The collection loop of GetNodesForVector (part_010 lines 326-345):
starting at `idx`, walk the sorted tokens, appending each not-yet-visited
owning node, while fewer than `replicationFactor` nodes are collected and
unvisited nodes remain.  The loop makes at most one full cycle — the Go
`idx == startIdx` break — which the fuel argument (started at the number
of tokens) renders exactly. -/
def ringWalk (r : TokenRing) : ℕ → ℕ → List String → List String → List String
  | 0, _, result, _ => result
  | fuel + 1, idx, result, visited =>
    if result.length < r.replicationFactor ∧ visited.length < r.nodeTokens.length then
      let nodeID := nodeAt r idx
      if nodeID ∈ visited then
        ringWalk r fuel ((idx + 1) % r.sortedTokens.length) result visited
      else
        ringWalk r fuel ((idx + 1) % r.sortedTokens.length)
          (result ++ [nodeID]) (visited ++ [nodeID])
    else result

/-- The walk's start position (part_010 lines 314-324): binary-search the
sorted tokens for the first token ≥ the hashed vector id (`sort.Search`,
modelled on the sorted list as the first satisfying index), wrapping to 0
past the end. -/
def ringStartIdx (hash : String → ℕ) (r : TokenRing) (vectorID : String) : ℕ :=
  let idx0 := r.sortedTokens.findIdx (fun t => decide (hash vectorID ≤ t))
  if idx0 = r.sortedTokens.length then 0 else idx0

/-- GetNodesForVector (part_010 lines 305-348): empty list on an empty
ring; otherwise walk the ring from the start position for at most one
full cycle. -/
def GetNodesForVector (hash : String → ℕ) (r : TokenRing) (vectorID : String) :
    List String :=
  if r.sortedTokens.length = 0 then []
  else ringWalk r r.sortedTokens.length (ringStartIdx hash r vectorID) [] []

/-! ### Association-list lemmas -/

/-- A successful lookup returns a pair of the list. -/
theorem alLookup_mem {κ ν : Type} [DecidableEq κ] {k : κ} {v : ν} {l : List (κ × ν)}
    (h : alLookup k l = some v) : (k, v) ∈ l := by
  induction l with
  | nil => simp [alLookup] at h
  | cons p t ih =>
    obtain ⟨a, b⟩ := p
    by_cases hk : a = k
    · subst hk
      rw [alLookup, List.find?_cons_of_pos _ (by simp)] at h
      obtain rfl : b = v := by simpa using h
      exact List.mem_cons_self _ _
    · rw [alLookup, List.find?_cons_of_neg _ (by simp [hk])] at h
      exact List.mem_cons_of_mem _ (ih h)

/-- Lookup finds a value exactly when the key occurs. -/
theorem alLookup_isSome_iff {κ ν : Type} [DecidableEq κ] {k : κ} {l : List (κ × ν)} :
    (alLookup k l).isSome = true ↔ k ∈ alKeys l := by
  induction l with
  | nil => simp [alLookup, alKeys]
  | cons p t ih =>
    obtain ⟨a, b⟩ := p
    by_cases hk : a = k
    · subst hk
      rw [alLookup, List.find?_cons_of_pos _ (by simp)]
      simp [alKeys]
    · rw [alLookup, List.find?_cons_of_neg _ (by simp [hk])]
      have hdef : (List.find? (fun p => decide (p.1 = k)) t).map Prod.snd = alLookup k t := rfl
      rw [hdef, ih]
      simp [alKeys, Ne.symm hk]

/-- On a list with no duplicate keys, lookup returns the value of any
pair present. -/
theorem alLookup_eq_of_mem {κ ν : Type} [DecidableEq κ] {k : κ} {v : ν}
    {l : List (κ × ν)} (hn : (alKeys l).Nodup) (hm : (k, v) ∈ l) :
    alLookup k l = some v := by
  induction l with
  | nil => simp at hm
  | cons p t ih =>
    obtain ⟨a, b⟩ := p
    have hcons : (a :: alKeys t).Nodup := by simpa [alKeys] using hn
    rcases List.mem_cons.mp hm with h | h
    · obtain ⟨ha, hb⟩ := Prod.mk.injEq k v a b ▸ h
      subst ha hb
      rw [alLookup, List.find?_cons_of_pos _ (by simp)]
      rfl
    · have hk : a ≠ k := by
        intro he
        subst he
        exact (List.nodup_cons.mp hcons).1 (List.mem_map_of_mem Prod.fst h)
      rw [alLookup, List.find?_cons_of_neg _ (by simp [hk])]
      exact ih (List.nodup_cons.mp hcons).2 h

/-! ### Ring walk lemmas -/

/-- Well-formedness of a ring state, the data-model invariants the spec
gives for the token ring: the sorted token list is in sync with the token
map; token keys and node keys are duplicate-free; every token's owner is
a known node; and every known node owns at least one token in the map. -/
abbrev RingWF (r : TokenRing) : Prop :=
  r.sortedTokens = List.insertionSort (· ≤ ·) (alKeys r.tokens) ∧
  (alKeys r.tokens).Nodup ∧
  (alKeys r.nodeTokens).Nodup ∧
  (∀ p ∈ r.tokens, p.2 ∈ alKeys r.nodeTokens) ∧
  (∀ n ∈ alKeys r.nodeTokens, ∃ p, p ∈ r.tokens ∧ p.2 = n)

/-- Under the sync and ownership invariants, every walk position yields a
known node. -/
theorem nodeAt_mem_keys (r : TokenRing)
    (hsync : r.sortedTokens = List.insertionSort (· ≤ ·) (alKeys r.tokens))
    (hvals : ∀ p ∈ r.tokens, p.2 ∈ alKeys r.nodeTokens)
    {j : ℕ} (hj : j < r.sortedTokens.length) :
    nodeAt r j ∈ alKeys r.nodeTokens := by
  have hmem : r.sortedTokens.getD j 0 ∈ r.sortedTokens := by
    rw [List.getD_eq_getElem _ _ hj]
    exact List.getElem_mem hj
  have hperm : List.Perm r.sortedTokens (alKeys r.tokens) := by
    rw [hsync]
    exact List.perm_insertionSort _ _
  have htok : r.sortedTokens.getD j 0 ∈ alKeys r.tokens := hperm.mem_iff.mp hmem
  obtain ⟨v, hv⟩ := Option.isSome_iff_exists.mp (alLookup_isSome_iff.mpr htok)
  have hval : nodeAt r j = v := by rw [nodeAt, alLookupD, hv]; rfl
  rw [hval]
  exact hvals _ (alLookup_mem hv)

/-- Structural invariant of the collection loop: starting from equal,
duplicate-free result and visited lists, the walk only appends nodes read
off the ring, keeps the result duplicate-free, and never exceeds the
replication factor or the node count. -/
theorem ringWalk_basic (r : TokenRing) :
    ∀ fuel idx res vis, res = vis → vis.Nodup → idx < r.sortedTokens.length →
      ∃ ext, ringWalk r fuel idx res vis = res ++ ext ∧
        (res ++ ext).Nodup ∧
        (res ++ ext).length ≤ max res.length r.replicationFactor ∧
        (res ++ ext).length ≤ max res.length r.nodeTokens.length ∧
        ∀ x ∈ ext, ∃ j, j < r.sortedTokens.length ∧ x = nodeAt r j := by
  intro fuel
  induction fuel with
  | zero =>
    intro idx res vis hrv hnd _
    subst hrv
    exact ⟨[], by simp [ringWalk], by simpa using hnd,
      by simp, by simp, by simp⟩
  | succ fuel ih =>
    intro idx res vis hrv hnd hidx
    subst hrv
    have hL : 0 < r.sortedTokens.length := Nat.pos_of_ne_zero (by omega)
    have hidx' : (idx + 1) % r.sortedTokens.length < r.sortedTokens.length :=
      Nat.mod_lt _ hL
    by_cases hg : res.length < r.replicationFactor ∧ res.length < r.nodeTokens.length
    · rw [ringWalk, if_pos hg]
      by_cases hv : nodeAt r idx ∈ res
      · rw [if_pos hv]
        exact ih _ res res rfl hnd hidx'
      · rw [if_neg hv]
        have hnd' : (res ++ [nodeAt r idx]).Nodup := by
          rw [List.nodup_append]
          refine ⟨hnd, List.nodup_singleton _, fun x hx h1 => ?_⟩
          rw [List.mem_singleton] at h1
          subst h1
          exact hv hx
        obtain ⟨ext', heq, hnd2, hlen1, hlen2, hmem⟩ :=
          ih _ (res ++ [nodeAt r idx]) (res ++ [nodeAt r idx]) rfl hnd' hidx'
        refine ⟨nodeAt r idx :: ext', ?_, ?_, ?_, ?_, ?_⟩
        · rw [heq, List.append_assoc]
          rfl
        · rw [show res ++ nodeAt r idx :: ext' = (res ++ [nodeAt r idx]) ++ ext' by
            rw [List.append_assoc]; rfl]
          exact hnd2
        · rw [show res ++ nodeAt r idx :: ext' = (res ++ [nodeAt r idx]) ++ ext' by
            rw [List.append_assoc]; rfl]
          refine hlen1.trans ?_
          simp only [List.length_append, List.length_singleton]
          omega
        · rw [show res ++ nodeAt r idx :: ext' = (res ++ [nodeAt r idx]) ++ ext' by
            rw [List.append_assoc]; rfl]
          refine hlen2.trans ?_
          simp only [List.length_append, List.length_singleton]
          omega
        · intro x hx
          rcases List.mem_cons.mp hx with h | h
          · exact ⟨idx, hidx, h⟩
          · exact hmem x h
    · rw [ringWalk, if_neg hg]
      exact ⟨[], by simp, by simpa using hnd, by simp, by simp, by simp⟩

/-- Coverage invariant of the collection loop: with fewer nodes than the
replication factor, the walk reaches every node named at a position it
still has fuel to visit, as well as everything already collected. -/
theorem ringWalk_covers (r : TokenRing)
    (hsync : r.sortedTokens = List.insertionSort (· ≤ ·) (alKeys r.tokens))
    (hvals : ∀ p ∈ r.tokens, p.2 ∈ alKeys r.nodeTokens)
    (hnkeys : (alKeys r.nodeTokens).Nodup)
    (hRN : r.nodeTokens.length < r.replicationFactor) :
    ∀ fuel idx res vis, res = vis → vis.Nodup →
      (∀ x ∈ vis, x ∈ alKeys r.nodeTokens) → idx < r.sortedTokens.length →
      ∀ n, (n ∈ vis ∨ ∃ t, t < fuel ∧
          n = nodeAt r ((idx + t) % r.sortedTokens.length)) →
        n ∈ ringWalk r fuel idx res vis := by
  intro fuel
  induction fuel with
  | zero =>
    intro idx res vis hrv hnd hsub hidx n hn
    subst hrv
    rcases hn with h | ⟨t, ht, _⟩
    · simpa [ringWalk] using h
    · omega
  | succ fuel ih =>
    intro idx res vis hrv hnd hsub hidx n hn
    subst hrv
    have hL : 0 < r.sortedTokens.length := by omega
    have hidx' : (idx + 1) % r.sortedTokens.length < r.sortedTokens.length :=
      Nat.mod_lt _ hL
    have hkeyslen : (alKeys r.nodeTokens).length = r.nodeTokens.length := by
      simp [alKeys]
    have hreslen : res.length ≤ r.nodeTokens.length := by
      have := (List.Nodup.subperm hnd hsub).length_le
      omega
    have hg1 : res.length < r.replicationFactor := by omega
    by_cases hvN : res.length < r.nodeTokens.length
    · rw [ringWalk, if_pos ⟨hg1, hvN⟩]
      have hshift : ∀ s, ((idx + 1) % r.sortedTokens.length + s) % r.sortedTokens.length =
          (idx + (s + 1)) % r.sortedTokens.length := by
        intro s
        rw [Nat.mod_add_mod]
        congr 1
        omega
      by_cases hv : nodeAt r idx ∈ res
      · rw [if_pos hv]
        refine ih _ res res rfl hnd hsub hidx' n ?_
        rcases hn with h | ⟨t, ht, hteq⟩
        · exact Or.inl h
        · match t, ht with
          | 0, _ =>
            refine Or.inl ?_
            rw [Nat.add_zero, Nat.mod_eq_of_lt hidx] at hteq
            exact hteq ▸ hv
          | s + 1, hs =>
            refine Or.inr ⟨s, by omega, ?_⟩
            rw [hshift s]
            exact hteq
      · rw [if_neg hv]
        have hnd' : (res ++ [nodeAt r idx]).Nodup := by
          rw [List.nodup_append]
          refine ⟨hnd, List.nodup_singleton _, fun x hx h1 => ?_⟩
          rw [List.mem_singleton] at h1
          subst h1
          exact hv hx
        have hsub' : ∀ x ∈ res ++ [nodeAt r idx], x ∈ alKeys r.nodeTokens := by
          intro x hx
          rcases List.mem_append.mp hx with h | h
          · exact hsub x h
          · rw [List.mem_singleton] at h
            exact h ▸ nodeAt_mem_keys r hsync hvals hidx
        refine ih _ _ _ rfl hnd' hsub' hidx' n ?_
        rcases hn with h | ⟨t, ht, hteq⟩
        · exact Or.inl (List.mem_append.mpr (Or.inl h))
        · match t, ht with
          | 0, _ =>
            refine Or.inl (List.mem_append.mpr (Or.inr ?_))
            rw [Nat.add_zero, Nat.mod_eq_of_lt hidx] at hteq
            simp [hteq]
          | s + 1, hs =>
            refine Or.inr ⟨s, by omega, ?_⟩
            rw [hshift s]
            exact hteq
    · have hall : ∀ m ∈ alKeys r.nodeTokens, m ∈ res := by
        have hperm : List.Perm res (alKeys r.nodeTokens) :=
          (List.Nodup.subperm hnd hsub).perm_of_length_le (by omega)
        intro m hm
        exact hperm.mem_iff.mpr hm
      rw [ringWalk, if_neg (by omega)]
      rcases hn with h | ⟨t, ht, hteq⟩
      · exact h
      · refine hall n ?_
        rw [hteq]
        exact nodeAt_mem_keys r hsync hvals (Nat.mod_lt _ hL)

/-- C1: on every well-formed ring state with replication factor ≥ 1, the
owner list is duplicate-free and has at most `min(R, #nodes)` entries; an
empty ring yields the empty list; and a ring with fewer than `R` nodes
yields exactly one entry per node. -/
theorem GetNodesForVector_spec (hash : String → ℕ) (r : TokenRing) (hwf : RingWF r)
    (hR : 1 ≤ r.replicationFactor) (vectorID : String) :
    (GetNodesForVector hash r vectorID).Nodup ∧
      (GetNodesForVector hash r vectorID).length ≤
        min r.replicationFactor r.nodeTokens.length ∧
      (r.nodeTokens = [] → GetNodesForVector hash r vectorID = []) ∧
      (r.nodeTokens.length < r.replicationFactor →
        ∀ n, n ∈ GetNodesForVector hash r vectorID ↔ n ∈ alKeys r.nodeTokens) := by
  obtain ⟨hsync, htkeys, hnkeys, hvals, hsurj⟩ := hwf
  have hperm : List.Perm r.sortedTokens (alKeys r.tokens) := by
    rw [hsync]
    exact List.perm_insertionSort _ _
  by_cases hL : r.sortedTokens.length = 0
  · rw [GetNodesForVector, if_pos hL]
    have hsnil : r.sortedTokens = [] := List.length_eq_zero.mp hL
    have hkeysnil : alKeys r.tokens = [] := by
      rw [hsnil] at hperm
      exact (List.Perm.eq_nil hperm.symm)
    have htoknil : r.tokens = [] := by
      cases htk : r.tokens with
      | nil => rfl
      | cons p t => rw [htk] at hkeysnil; simp [alKeys] at hkeysnil
    refine ⟨List.nodup_nil, by simp, fun _ => rfl, fun _ n => ?_⟩
    simp only [List.not_mem_nil, false_iff]
    intro hmem
    obtain ⟨p, hp, _⟩ := hsurj n hmem
    rw [htoknil] at hp
    exact absurd hp (List.not_mem_nil p)
  · have hLpos : 0 < r.sortedTokens.length := Nat.pos_of_ne_zero hL
    have hidx : ringStartIdx hash r vectorID < r.sortedTokens.length := by
      rw [ringStartIdx]
      by_cases he : r.sortedTokens.findIdx (fun t => decide (hash vectorID ≤ t)) =
          r.sortedTokens.length
      · rw [if_pos he]
        exact hLpos
      · rw [if_neg he]
        exact lt_of_le_of_ne (List.findIdx_le_length _) he
    rw [GetNodesForVector, if_neg hL]
    obtain ⟨ext, heq, hnodup, hlen1, hlen2, hmem⟩ :=
      ringWalk_basic r r.sortedTokens.length (ringStartIdx hash r vectorID) [] []
        rfl List.nodup_nil hidx
    rw [List.nil_append] at heq hnodup hlen1 hlen2
    rw [heq]
    simp only [List.length_nil, Nat.max_eq_right (Nat.zero_le _)] at hlen1 hlen2
    refine ⟨hnodup, le_min hlen1 hlen2, ?_, ?_⟩
    · intro hnil
      have : ext.length = 0 := by
        rw [hnil] at hlen2
        simpa using hlen2
      exact List.length_eq_zero.mp this
    · intro hNR n
      constructor
      · intro hn
        obtain ⟨j, hj, hx⟩ := hmem n hn
        exact hx ▸ nodeAt_mem_keys r hsync hvals hj
      · intro hn
        obtain ⟨p, hp, hpn⟩ := hsurj n hn
        have hkmem : p.1 ∈ r.sortedTokens :=
          hperm.mem_iff.mpr (List.mem_map_of_mem Prod.fst hp)
        obtain ⟨j, hj, hjx⟩ := List.mem_iff_getElem.mp hkmem
        have hnodeAt : nodeAt r j = n := by
          rw [nodeAt, List.getD_eq_getElem _ _ hj, hjx, alLookupD,
            alLookup_eq_of_mem htkeys hp]
          exact hpn
        have hcov := ringWalk_covers r hsync hvals hnkeys hNR
          r.sortedTokens.length (ringStartIdx hash r vectorID) [] []
          rfl List.nodup_nil (by simp) hidx n
          (Or.inr ⟨(r.sortedTokens.length + j - ringStartIdx hash r vectorID) %
              r.sortedTokens.length,
            Nat.mod_lt _ hLpos, by
            rw [Nat.add_mod_mod]
            have harith : ringStartIdx hash r vectorID +
                (r.sortedTokens.length + j - ringStartIdx hash r vectorID) =
                r.sortedTokens.length + j := by omega
            rw [harith, Nat.add_mod_left, Nat.mod_eq_of_lt hj, hnodeAt]⟩)
        rw [heq] at hcov
        exact hcov

/-- A concrete stand-in for the md5-derived digest, injective on the keys
the sample rings hash. -/
def toyHash : String → ℕ := fun s =>
  if s = "a:0" then 10 else if s = "b:0" then 20 else if s = "c:0" then 30 else 0

/-- A ring with one virtual node per node, replication factor 3, and two
nodes added, so it has fewer nodes than the replication factor. -/
def sampleRing : TokenRing :=
  AddNode toyHash (AddNode toyHash (NewTokenRing 1 3) "a") "b"

/-- C1 witness: the owner-list theorem instantiated on the two-node sample
ring, whose well-formedness is decided by evaluation. -/
theorem GetNodesForVector_spec_witness :
    RingWF sampleRing ∧ 1 ≤ sampleRing.replicationFactor ∧
      ((GetNodesForVector toyHash sampleRing "v").Nodup ∧
        (GetNodesForVector toyHash sampleRing "v").length ≤
          min sampleRing.replicationFactor sampleRing.nodeTokens.length ∧
        (sampleRing.nodeTokens = [] → GetNodesForVector toyHash sampleRing "v" = []) ∧
        (sampleRing.nodeTokens.length < sampleRing.replicationFactor →
          ∀ n, n ∈ GetNodesForVector toyHash sampleRing "v" ↔
            n ∈ alKeys sampleRing.nodeTokens)) :=
  ⟨by decide, by decide,
    GetNodesForVector_spec toyHash sampleRing (by decide) (by decide) "v"⟩

/-! ### Ring determinism (C2)

Go map iteration order is unspecified, so the association lists standing
for the two maps may, across two executions, hold the same entries in
different orders.  Two ring states are `TokenRingEquiv` when they agree up to
such reordering; the theorems below show every ring operation preserves
this relation and that the sorted-token list and ownership queries are
identical across it. -/

/-- Both maps of the ring state have duplicate-free key lists. -/
abbrev RingKeysOk (r : TokenRing) : Prop :=
  (alKeys r.tokens).Nodup ∧ (alKeys r.nodeTokens).Nodup

/-- Equality of ring states up to association-list (map representation)
order. -/
abbrev TokenRingEquiv (r₁ r₂ : TokenRing) : Prop :=
  List.Perm r₁.tokens r₂.tokens ∧ List.Perm r₁.nodeTokens r₂.nodeTokens ∧
  r₁.sortedTokens = r₂.sortedTokens ∧ r₁.virtualNodes = r₂.virtualNodes ∧
  r₁.replicationFactor = r₂.replicationFactor

/-- Lookup is representation-order independent on duplicate-free keys. -/
theorem alLookup_congr {κ ν : Type} [DecidableEq κ] {l₁ l₂ : List (κ × ν)}
    (hperm : List.Perm l₁ l₂) (hnd : (alKeys l₁).Nodup) (k : κ) :
    alLookup k l₁ = alLookup k l₂ := by
  have hnd₂ : (alKeys l₂).Nodup := ((hperm.map Prod.fst).nodup_iff).mp hnd
  cases h₁ : alLookup k l₁ with
  | some v =>
    rw [alLookup_eq_of_mem hnd₂ (hperm.mem_iff.mp (alLookup_mem h₁))]
  | none =>
    cases h₂ : alLookup k l₂ with
    | none => rfl
    | some v =>
      have hk : k ∈ alKeys l₁ :=
        (hperm.map Prod.fst).mem_iff.mpr (alLookup_isSome_iff.mp (by rw [h₂]; rfl))
      have := alLookup_isSome_iff.mpr hk
      rw [h₁] at this
      simp at this

/-- Erasing a key respects representation order. -/
theorem foldl_alErase_perm {κ ν : Type} [DecidableEq κ] (ks : List κ)
    {l₁ l₂ : List (κ × ν)} (h : List.Perm l₁ l₂) :
    List.Perm (ks.foldl (fun acc k => alErase k acc) l₁)
      (ks.foldl (fun acc k => alErase k acc) l₂) := by
  induction ks generalizing l₁ l₂ with
  | nil => exact h
  | cons a ks ih => exact ih (h.filter _)

/-- Writing a batch of keys respects representation order. -/
theorem foldl_alUpdate_perm {κ ν : Type} [DecidableEq κ] (ks : List κ) (v : ν)
    {l₁ l₂ : List (κ × ν)} (h : List.Perm l₁ l₂) :
    List.Perm (ks.foldl (fun acc k => alUpdate k v acc) l₁)
      (ks.foldl (fun acc k => alUpdate k v acc) l₂) := by
  induction ks generalizing l₁ l₂ with
  | nil => exact h
  | cons a ks ih => exact ih ((h.filter _).append_right _)

/-- The keys of an erase are the filtered keys. -/
theorem alKeys_alErase {κ ν : Type} [DecidableEq κ] (k : κ) (l : List (κ × ν)) :
    alKeys (alErase k l) = (alKeys l).filter (fun x => decide (x ≠ k)) := by
  induction l with
  | nil => rfl
  | cons p t ih =>
    by_cases hp : p.1 = k
    · simpa [alErase, alKeys, List.filter_cons, hp] using ih
    · simpa [alErase, alKeys, List.filter_cons, hp] using ih

/-- Erasing preserves duplicate-free keys. -/
theorem alErase_keys_nodup {κ ν : Type} [DecidableEq κ] {k : κ} {l : List (κ × ν)}
    (hnd : (alKeys l).Nodup) : (alKeys (alErase k l)).Nodup := by
  rw [alKeys_alErase]
  exact hnd.filter _

/-- Updating preserves duplicate-free keys. -/
theorem alUpdate_keys_nodup {κ ν : Type} [DecidableEq κ] {k : κ} {v : ν}
    {l : List (κ × ν)} (hnd : (alKeys l).Nodup) :
    (alKeys (alUpdate k v l)).Nodup := by
  have hsplit : alKeys (alUpdate k v l) = alKeys (alErase k l) ++ [k] := by
    simp [alUpdate, alKeys]
  rw [hsplit, List.nodup_append]
  refine ⟨alErase_keys_nodup hnd, List.nodup_singleton _, fun x hx h1 => ?_⟩
  rw [List.mem_singleton] at h1
  subst h1
  rw [alKeys_alErase] at hx
  have := List.of_mem_filter hx
  simp at this

/-- Writing a batch of keys preserves duplicate-free keys. -/
theorem foldl_alUpdate_keys_nodup {κ ν : Type} [DecidableEq κ] (ks : List κ) (v : ν)
    {l : List (κ × ν)} (hnd : (alKeys l).Nodup) :
    (alKeys (ks.foldl (fun acc k => alUpdate k v acc) l)).Nodup := by
  induction ks generalizing l with
  | nil => exact hnd
  | cons a ks ih => exact ih (alUpdate_keys_nodup hnd)

/-- Erasing a batch of keys preserves duplicate-free keys. -/
theorem foldl_alErase_keys_nodup {κ ν : Type} [DecidableEq κ] (ks : List κ)
    {l : List (κ × ν)} (hnd : (alKeys l).Nodup) :
    (alKeys (ks.foldl (fun acc k => alErase k acc) l)).Nodup := by
  induction ks generalizing l with
  | nil => exact hnd
  | cons a ks ih => exact ih (alErase_keys_nodup hnd)

/-- Sorting is a function of the multiset of keys: permuted inputs sort
to the same list. -/
theorem insertionSort_congr_perm {l₁ l₂ : List ℕ} (h : List.Perm l₁ l₂) :
    List.insertionSort (· ≤ ·) l₁ = List.insertionSort (· ≤ ·) l₂ :=
  List.eq_of_perm_of_sorted
    ((List.perm_insertionSort _ _).trans (h.trans (List.perm_insertionSort _ _).symm))
    (List.sorted_insertionSort _ _) (List.sorted_insertionSort _ _)

/-- AddNode preserves equality-up-to-representation-order. -/
theorem AddNode_equiv (hash : String → ℕ) {r₁ r₂ : TokenRing} (h : TokenRingEquiv r₁ r₂)
    (n : String) : TokenRingEquiv (AddNode hash r₁ n) (AddNode hash r₂ n) := by
  obtain ⟨htok, hnode, hsort, hV, hR⟩ := h
  by_cases hmem : n ∈ alKeys r₁.nodeTokens
  · have hmem₂ : n ∈ alKeys r₂.nodeTokens := (hnode.map Prod.fst).mem_iff.mp hmem
    rw [AddNode, if_pos hmem, AddNode, if_pos hmem₂]
    exact ⟨htok, hnode, hsort, hV, hR⟩
  · have hmem₂ : ¬ n ∈ alKeys r₂.nodeTokens := fun hc =>
      hmem ((hnode.map Prod.fst).mem_iff.mpr hc)
    have hfold : List.Perm
        (((List.range r₁.virtualNodes).map (fun i => hash (n ++ ":" ++ toString i))).foldl
          (fun acc token => alUpdate token n acc) r₁.tokens)
        (((List.range r₂.virtualNodes).map (fun i => hash (n ++ ":" ++ toString i))).foldl
          (fun acc token => alUpdate token n acc) r₂.tokens) := by
      rw [← hV]
      exact foldl_alUpdate_perm _ _ htok
    rw [AddNode, if_neg hmem, AddNode, if_neg hmem₂]
    simp only [updateSortedTokens]
    refine ⟨hfold, ?_, ?_, hV, hR⟩
    · rw [← hV]
      exact (hnode.filter _).append_right _
    · exact insertionSort_congr_perm (hfold.map Prod.fst)

/-- AddNode preserves duplicate-free keys. -/
theorem AddNode_keysOk (hash : String → ℕ) {r : TokenRing} (hk : RingKeysOk r)
    (n : String) : RingKeysOk (AddNode hash r n) := by
  by_cases hmem : n ∈ alKeys r.nodeTokens
  · rw [AddNode, if_pos hmem]
    exact hk
  · rw [AddNode, if_neg hmem]
    simp only [updateSortedTokens]
    exact ⟨foldl_alUpdate_keys_nodup _ _ hk.1, alUpdate_keys_nodup hk.2⟩

/-- RemoveNode preserves equality-up-to-representation-order. -/
theorem RemoveNode_equiv {r₁ r₂ : TokenRing} (h : TokenRingEquiv r₁ r₂) (hk : RingKeysOk r₁)
    (n : String) : TokenRingEquiv (RemoveNode r₁ n) (RemoveNode r₂ n) := by
  obtain ⟨htok, hnode, hsort, hV, hR⟩ := h
  have hlook : alLookup n r₂.nodeTokens = alLookup n r₁.nodeTokens :=
    (alLookup_congr hnode hk.2 n).symm
  cases heq : alLookup n r₁.nodeTokens with
  | none =>
    rw [heq] at hlook
    simp only [RemoveNode, heq, hlook]
    exact ⟨htok, hnode, hsort, hV, hR⟩
  | some tks =>
    rw [heq] at hlook
    simp only [RemoveNode, heq, hlook, updateSortedTokens]
    exact ⟨foldl_alErase_perm tks htok, hnode.filter _,
      insertionSort_congr_perm ((foldl_alErase_perm tks htok).map Prod.fst), hV, hR⟩

/-- RemoveNode preserves duplicate-free keys. -/
theorem RemoveNode_keysOk {r : TokenRing} (hk : RingKeysOk r) (n : String) :
    RingKeysOk (RemoveNode r n) := by
  cases heq : alLookup n r.nodeTokens with
  | none =>
    simp only [RemoveNode, heq]
    exact hk
  | some tks =>
    simp only [RemoveNode, heq, updateSortedTokens]
    exact ⟨foldl_alErase_keys_nodup _ hk.1, alErase_keys_nodup hk.2⟩

/-- The ring walk reads the state only through representation-order
independent observations, so it is invariant under `TokenRingEquiv`. -/
theorem ringWalk_congr {r₁ r₂ : TokenRing} (h : TokenRingEquiv r₁ r₂) (hk : RingKeysOk r₁) :
    ∀ fuel idx res vis, ringWalk r₁ fuel idx res vis = ringWalk r₂ fuel idx res vis := by
  obtain ⟨htok, hnode, hsort, hV, hR⟩ := h
  have hlen : r₁.nodeTokens.length = r₂.nodeTokens.length := hnode.length_eq
  have hAt : ∀ j, nodeAt r₁ j = nodeAt r₂ j := by
    intro j
    rw [nodeAt, nodeAt, hsort, alLookupD, alLookupD, alLookup_congr htok hk.1]
  intro fuel
  induction fuel with
  | zero => intro idx res vis; rfl
  | succ fuel ih =>
    intro idx res vis
    by_cases hg : res.length < r₁.replicationFactor ∧ vis.length < r₁.nodeTokens.length
    · have hg₂ : res.length < r₂.replicationFactor ∧ vis.length < r₂.nodeTokens.length := by
        rw [← hR, ← hlen]
        exact hg
      rw [ringWalk, ringWalk, if_pos hg, if_pos hg₂, hAt idx, hsort]
      by_cases hv : nodeAt r₂ idx ∈ vis
      · rw [if_pos hv, if_pos hv, ih]
      · rw [if_neg hv, if_neg hv, ih]
    · have hg₂ : ¬ (res.length < r₂.replicationFactor ∧
          vis.length < r₂.nodeTokens.length) := by
        rw [← hR, ← hlen]
        exact hg
      rw [ringWalk, ringWalk, if_neg hg, if_neg hg₂]

/-- Ownership queries are invariant under `TokenRingEquiv`. -/
theorem GetNodesForVector_congr (hash : String → ℕ) {r₁ r₂ : TokenRing}
    (h : TokenRingEquiv r₁ r₂) (hk : RingKeysOk r₁) (vectorID : String) :
    GetNodesForVector hash r₁ vectorID = GetNodesForVector hash r₂ vectorID := by
  have hsort : r₁.sortedTokens = r₂.sortedTokens := h.2.2.1
  have hstart : ringStartIdx hash r₁ vectorID = ringStartIdx hash r₂ vectorID := by
    rw [ringStartIdx, ringStartIdx, hsort]
  rw [GetNodesForVector, GetNodesForVector, hstart, hsort, ringWalk_congr h hk]

/-- The membership operations the spec sequences over a ring. -/
inductive RingOp where
  | add (nodeID : String)
  | remove (nodeID : String)
deriving DecidableEq

/-- Apply one membership operation. -/
def applyOp (hash : String → ℕ) (r : TokenRing) (op : RingOp) : TokenRing :=
  match op with
  | RingOp.add n => AddNode hash r n
  | RingOp.remove n => RemoveNode r n

/-- Apply an ordered sequence of membership operations. -/
def applyOps (hash : String → ℕ) (ops : List RingOp) (r : TokenRing) : TokenRing :=
  ops.foldl (applyOp hash) r

/-- Each operation preserves both invariants. -/
theorem applyOp_preserves (hash : String → ℕ) (op : RingOp) {r₁ r₂ : TokenRing}
    (h : TokenRingEquiv r₁ r₂) (hk : RingKeysOk r₁) :
    TokenRingEquiv (applyOp hash r₁ op) (applyOp hash r₂ op) ∧
      RingKeysOk (applyOp hash r₁ op) := by
  cases op with
  | add n => exact ⟨AddNode_equiv hash h n, AddNode_keysOk hash hk n⟩
  | remove n => exact ⟨RemoveNode_equiv h hk n, RemoveNode_keysOk hk n⟩

/-- C2: applying the same ordered sequence of add/remove operations to two
rings that agree up to map-representation order — in particular, to two
freshly created empty rings with the same virtual-node count — yields
identical sorted-token lists and identical ownership answers for every
vector id, whatever iteration order the map runtime exhibits. -/
theorem ring_same_ops_deterministic (hash : String → ℕ) (ops : List RingOp)
    {r₁ r₂ : TokenRing} (heq : TokenRingEquiv r₁ r₂) (hk : RingKeysOk r₁)
    (vectorID : String) :
    (applyOps hash ops r₁).sortedTokens = (applyOps hash ops r₂).sortedTokens ∧
      GetNodesForVector hash (applyOps hash ops r₁) vectorID =
        GetNodesForVector hash (applyOps hash ops r₂) vectorID := by
  have main : TokenRingEquiv (applyOps hash ops r₁) (applyOps hash ops r₂) ∧
      RingKeysOk (applyOps hash ops r₁) := by
    induction ops generalizing r₁ r₂ with
    | nil => exact ⟨heq, hk⟩
    | cons op ops ih =>
      obtain ⟨h', hk'⟩ := applyOp_preserves hash op heq hk
      exact ih h' hk'
  exact ⟨main.1.2.2.1, GetNodesForVector_congr hash main.1 main.2 vectorID⟩

/-- A two-node ring state in one representation order. -/
def sampleRingA : TokenRing :=
  { tokens := [(10, "a"), (20, "b")], sortedTokens := [10, 20],
    nodeTokens := [("a", [10]), ("b", [20])], virtualNodes := 1, replicationFactor := 2 }

/-- The same ring state with both maps enumerated in the other order. -/
def sampleRingB : TokenRing :=
  { tokens := [(20, "b"), (10, "a")], sortedTokens := [10, 20],
    nodeTokens := [("b", [20]), ("a", [10])], virtualNodes := 1, replicationFactor := 2 }

/-- C2 witness: the determinism theorem instantiated on the two
representation-swapped states and a concrete operation sequence. -/
theorem ring_same_ops_deterministic_witness :
    TokenRingEquiv sampleRingA sampleRingB ∧ RingKeysOk sampleRingA ∧
      ((applyOps toyHash [RingOp.add "c", RingOp.remove "a"] sampleRingA).sortedTokens =
        (applyOps toyHash [RingOp.add "c", RingOp.remove "a"] sampleRingB).sortedTokens ∧
        GetNodesForVector toyHash
            (applyOps toyHash [RingOp.add "c", RingOp.remove "a"] sampleRingA) "v" =
          GetNodesForVector toyHash
            (applyOps toyHash [RingOp.add "c", RingOp.remove "a"] sampleRingB) "v") :=
  ⟨by decide, by decide,
    ring_same_ops_deterministic toyHash [RingOp.add "c", RingOp.remove "a"]
      (by decide) (by decide) "v"⟩

/-! ## Local vector store (src/src/vectorstore/http.go, VectorStore)

`AddVector` (lines 320-369) and `GetVector` (lines 372-396), as pure
transitions on the store state under its lock.  The Go `*Vector` argument
that may be nil is an `Option`; metadata values (`interface{}`) are an
opaque type parameter `M`.  A call returns the Go error value (`none` for
the nil error) together with the post-state. -/

/-- Vector (http.go lines 246-250). -/
structure StoreVector (M : Type) where
  id : String
  values : List ℚ
  metadata : List (String × M)

/-- The fields of VectorStore (http.go lines 266-275) these claims read
and write: node id, dimension, the id → vector map, and the optionally
attached token ring.  The distance function and logger do not enter
AddVector/GetVector. -/
structure VectorStore (M : Type) where
  nodeID : String
  dimensions : ℕ
  vectors : List (String × StoreVector M)
  tokenRing : Option TokenRing

/-- The element-wise copy of the coordinate slice
(`make([]float32, …)` + `copy`). -/
def copyValues : List ℚ → List ℚ
  | [] => []
  | x :: xs => x :: copyValues xs

/-- The deep copy of a vector made by AddVector (http.go lines 352-364)
and GetVector (lines 381-393): fresh values slice and a fresh metadata
map holding the same entries. -/
def copyVector {M : Type} (v : StoreVector M) : StoreVector M :=
  { id := v.id, values := copyValues v.values,
    metadata := v.metadata.map (fun p => (p.1, p.2)) }

/-- AddVector (http.go lines 320-369): reject nil; reject a dimension
mismatch; if a token ring is attached and this node is not among the
owners of the vector's id, return success without storing anything;
otherwise store a deep copy under the vector's id. -/
def AddVector {M : Type} (hash : String → ℕ) (vs : VectorStore M)
    (vector : Option (StoreVector M)) : Option String × VectorStore M :=
  match vector with
  | none => (some "vector cannot be nil", vs)
  | some v =>
    if v.values.length ≠ vs.dimensions then
      (some ("vector has wrong dimensions: got " ++ toString v.values.length ++
        ", expected " ++ toString vs.dimensions), vs)
    else
      match vs.tokenRing with
      | some ring =>
        if vs.nodeID ∈ GetNodesForVector hash ring v.id then
          (none, { vs with vectors := alUpdate v.id (copyVector v) vs.vectors })
        else
          (none, vs)
      | none => (none, { vs with vectors := alUpdate v.id (copyVector v) vs.vectors })

/-- GetVector (http.go lines 372-396): not-found error for an absent id,
else a deep copy of the stored vector. -/
def GetVector {M : Type} (vs : VectorStore M) (id : String) :
    Except String (StoreVector M) :=
  match alLookup id vs.vectors with
  | none => Except.error ("vector " ++ id ++ " not found")
  | some v => Except.ok (copyVector v)

/-- The element-wise copy returns the same coordinates. -/
theorem copyValues_eq (l : List ℚ) : copyValues l = l := by
  induction l with
  | nil => rfl
  | cons x xs ih => rw [copyValues, ih]

/-- A map write is observed by a subsequent read of the same key. -/
theorem alLookup_alUpdate_self {κ ν : Type} [DecidableEq κ] (k : κ) (v : ν)
    (l : List (κ × ν)) : alLookup k (alUpdate k v l) = some v := by
  rw [alUpdate, alLookup, List.find?_append]
  have hnone : (alErase k l).find? (fun p => decide (p.1 = k)) = none := by
    rw [List.find?_eq_none]
    intro p hp
    have hne := List.of_mem_filter hp
    simp only [decide_eq_true_eq] at hne ⊢
    exact hne
  rw [hnone]
  rw [List.find?_cons_of_pos _ (by simp)]
  rfl

/-- C10: AddVector called with a nil vector returns the error "vector
cannot be nil" before touching any field of the argument, and leaves the
store state — in particular the id → vector map — unchanged. -/
theorem AddVector_nil_safe {M : Type} (hash : String → ℕ) (vs : VectorStore M) :
    AddVector hash vs none = (some "vector cannot be nil", vs) := rfl

/-- C4: with a ring attached and the local node not among the owners of
the vector's id, a dimension-correct put returns success (nil error) and
leaves the store state unchanged — a silent no-op. -/
theorem AddVector_nonowner_noop {M : Type} (hash : String → ℕ) (vs : VectorStore M)
    (v : StoreVector M) (ring : TokenRing)
    (hdim : v.values.length = vs.dimensions)
    (hring : vs.tokenRing = some ring)
    (hnot : vs.nodeID ∉ GetNodesForVector hash ring v.id) :
    AddVector hash vs (some v) = (none, vs) := by
  simp only [AddVector, hring, if_neg (not_ne_iff.mpr hdim)]
  rw [if_neg hnot]

/-- C9: a put accepted onto the store — correct dimension, and either no
ring attached or the local node among the owners — succeeds, and an
immediately following get of the same id succeeds and returns coordinates
equal to those put (the stored and returned vectors being the copies the
code makes). -/
theorem put_get_roundtrip {M : Type} (hash : String → ℕ) (vs : VectorStore M)
    (v : StoreVector M) (hdim : v.values.length = vs.dimensions)
    (hloc : vs.tokenRing = none ∨ ∃ ring, vs.tokenRing = some ring ∧
      vs.nodeID ∈ GetNodesForVector hash ring v.id) :
    (AddVector hash vs (some v)).1 = none ∧
      ∃ w, GetVector (AddVector hash vs (some v)).2 v.id = Except.ok w ∧
        w.values = v.values := by
  have hstep : AddVector hash vs (some v) =
      (none, { vs with vectors := alUpdate v.id (copyVector v) vs.vectors }) := by
    rcases hloc with hnone | ⟨ring, hring, hmem⟩
    · simp only [AddVector, hnone, if_neg (not_ne_iff.mpr hdim)]
    · simp only [AddVector, hring, if_neg (not_ne_iff.mpr hdim)]
      rw [if_pos hmem]
  rw [hstep]
  refine ⟨rfl, copyVector (copyVector v), ?_, ?_⟩
  · rw [GetVector]
    have hl : alLookup v.id (alUpdate v.id (copyVector v) vs.vectors) =
        some (copyVector v) := alLookup_alUpdate_self _ _ _
    rw [hl]
  · rw [copyVector, copyVector]
    exact (copyValues_eq _).trans (copyValues_eq _)

/-- A single-node ring whose only node is "a". -/
def ringOnlyA : TokenRing := AddNode toyHash (NewTokenRing 1 1) "a"

/-- A store on node "me" with that ring attached and no vectors. -/
def sampleStoreRinged : VectorStore String :=
  { nodeID := "me", dimensions := 1, vectors := [], tokenRing := some ringOnlyA }

/-- A store on node "me" with no ring attached and no vectors. -/
def sampleStoreLocal : VectorStore String :=
  { nodeID := "me", dimensions := 1, vectors := [], tokenRing := none }

/-- A dimension-1 vector to put. -/
def sampleVec : StoreVector String := { id := "w", values := [3 / 2], metadata := [] }

/-- C4 witness: the silent-drop theorem instantiated on a store whose
ring owns everything on node "a" while the store runs on node "me". -/
theorem AddVector_nonowner_noop_witness :
    sampleVec.values.length = sampleStoreRinged.dimensions ∧
      sampleStoreRinged.tokenRing = some ringOnlyA ∧
      sampleStoreRinged.nodeID ∉ GetNodesForVector toyHash ringOnlyA sampleVec.id ∧
      AddVector toyHash sampleStoreRinged (some sampleVec) = (none, sampleStoreRinged) :=
  ⟨by decide, rfl, by decide,
    AddVector_nonowner_noop toyHash sampleStoreRinged sampleVec ringOnlyA
      (by decide) rfl (by decide)⟩

/-- C9 witness: the round-trip theorem instantiated on the ring-less
store. -/
theorem put_get_roundtrip_witness :
    sampleVec.values.length = sampleStoreLocal.dimensions ∧
      sampleStoreLocal.tokenRing = none ∧
      ((AddVector toyHash sampleStoreLocal (some sampleVec)).1 = none ∧
        ∃ w, GetVector (AddVector toyHash sampleStoreLocal (some sampleVec)).2
            sampleVec.id = Except.ok w ∧ w.values = sampleVec.values) :=
  ⟨by decide, rfl,
    put_get_roundtrip toyHash sampleStoreLocal sampleVec (by decide) (Or.inl rfl)⟩

/-! ## Reference linear index (src/unnamed/part_006, LinearIndex.Search)

`LinearIndex.Search` (lines 180-313).  The worker pool computes, for each
stored vector that is not soft-deleted and passes the metadata filter, the
metric distance to the (cosine-normalized) query; the collector attaches
the normalized score, applies the score threshold, sorts best-first, and
truncates.  The channel fan-out only permutes the candidate order before
the sort, so the pipeline below enumerates the stored vectors in state
order; the properties proved (sortedness, result count) are independent
of that order.  `sqrt` and `exp` abstract `math.Sqrt` and `math.Exp`. -/

/-- NormalizeVector (part_010 lines 94-108): no-op on a zero vector, else
divide every coordinate by the L2 norm. -/
def NormalizeVector (sqrt : ℚ → ℚ) (v : List ℚ) : List ℚ :=
  let sumSquares := qsum (v.map (fun x => x * x))
  if sumSquares = 0 then v
  else v.map (fun x => x / sqrt sumSquares)

/-- GetDistanceFunc (part_010 lines 14-27): the kernel for each metric —
raw similarity for cosine and dot product, raw distance for Euclidean and
Manhattan.  (Its error return is unreachable for the four-valued
enumeration.) -/
def GetDistanceFunc (sqrt : ℚ → ℚ) (metric : DistanceMetric) :
    List ℚ → List ℚ → WithTop ℚ :=
  match metric with
  | DistanceMetric.Cosine => CosineSimilarity sqrt
  | DistanceMetric.DotProduct => DotProduct
  | DistanceMetric.Euclidean => EuclideanDistance sqrt
  | DistanceMetric.Manhattan => ManhattanDistance

/-- IsHigherBetter (part_010 lines 176-185). -/
def IsHigherBetter (metric : DistanceMetric) : Bool :=
  match metric with
  | DistanceMetric.Cosine => true
  | DistanceMetric.DotProduct => true
  | DistanceMetric.Euclidean => false
  | DistanceMetric.Manhattan => false

/-- NormalizeScore (part_010 lines 189-214): map the raw value into
[0, 1] — `(sim+1)/2` for cosine, clamping for dot product, `exp(−d)` for
Euclidean, `exp(−d/2)` for Manhattan — extended to the `+Inf` raw value
by the IEEE limits the float code computes (`exp(−Inf) = 0`, clamping of
`+Inf` to 1, `(Inf+1)/2 = Inf`). -/
def NormalizeScore (exp : ℚ → ℚ) (rawValue : WithTop ℚ) (metric : DistanceMetric) :
    WithTop ℚ :=
  match metric with
  | DistanceMetric.Cosine => WithTop.map (fun q => (q + 1) / 2) rawValue
  | DistanceMetric.DotProduct =>
      if rawValue ≤ ((0 : ℚ) : WithTop ℚ) then ((0 : ℚ) : WithTop ℚ)
      else if ((1 : ℚ) : WithTop ℚ) ≤ rawValue then ((1 : ℚ) : WithTop ℚ)
      else rawValue
  | DistanceMetric.Euclidean =>
      WithTop.recTopCoe ((0 : ℚ) : WithTop ℚ)
        (fun q => ((exp (-q) : ℚ) : WithTop ℚ)) rawValue
  | DistanceMetric.Manhattan =>
      WithTop.recTopCoe ((0 : ℚ) : WithTop ℚ)
        (fun q => ((exp (-q * (1 / 2)) : ℚ) : WithTop ℚ)) rawValue

/-- The fields of models.Vector (src/src/models/vector.go) the search
path reads: id, coordinates, and the soft-deletion flag.  The metadata
bag is only consulted through the filter, abstracted below as a
predicate. -/
structure MVector where
  id : String
  values : List ℚ
  deleted : Bool
deriving DecidableEq

/-- models.SearchResult (src/src/models/vector_collection.go lines
69-74). -/
structure SearchResult where
  id : String
  distance : WithTop ℚ
  vector : MVector
  score : WithTop ℚ
deriving DecidableEq

/-- The one field of models.SearchParams the linear index reads. -/
structure SearchParams where
  scoreThreshold : ℚ
deriving DecidableEq

/-- The effective score threshold (part_006 lines 212-215): −1 unless
params carry a positive threshold. -/
def searchThreshold (params : Option SearchParams) : ℚ :=
  match params with
  | some p => if 0 < p.scoreThreshold then p.scoreThreshold else -1
  | none => -1

/-- The worker/collector phase (part_006 lines 236-292): keep the stored
vectors that are not soft-deleted and pass the filter, attach distance
and score, and drop candidates under the positive score threshold. -/
def scoredSurvivors (sqrt exp : ℚ → ℚ) (metric : DistanceMetric)
    (vectors : List MVector) (queryCopy : List ℚ)
    (filter : Option (MVector → Bool)) (params : Option SearchParams) :
    List SearchResult :=
  ((vectors.filter (fun vec => !vec.deleted &&
      (match filter with | some f => f vec | none => true))).map
    (fun vec =>
      { id := vec.id,
        distance := GetDistanceFunc sqrt metric queryCopy vec.values,
        vector := vec,
        score := NormalizeScore exp
          (GetDistanceFunc sqrt metric queryCopy vec.values) metric })).filter
    (fun res => !(decide (0 < searchThreshold params) &&
      decide (res.score < ((searchThreshold params : ℚ) : WithTop ℚ))))

instance : DecidableRel (fun (a b : SearchResult) => b.distance ≤ a.distance) :=
  fun a b => inferInstanceAs (Decidable (b.distance ≤ a.distance))

instance : DecidableRel (fun (a b : SearchResult) => a.distance ≤ b.distance) :=
  fun a b => inferInstanceAs (Decidable (a.distance ≤ b.distance))

/-- The sort phase (part_006 lines 294-305): by raw distance, descending
for similarity metrics, ascending for distance metrics.  `sort.Slice` is
an unstable comparison sort; any sort of the same multiset satisfies the
stated ordering, and insertion sort is used here. -/
def searchSorted (metric : DistanceMetric) (results : List SearchResult) :
    List SearchResult :=
  if IsHigherBetter metric then
    List.insertionSort (fun a b => b.distance ≤ a.distance) results
  else
    List.insertionSort (fun a b => a.distance ≤ b.distance) results

/-- The truncation phase (part_006 lines 307-310). -/
def searchTruncate (k : ℤ) (sorted : List SearchResult) : List SearchResult :=
  if k < (sorted.length : ℤ) then sorted.take k.toNat else sorted

/-- LinearIndex.Search (part_006 lines 180-313): reject a query of the
wrong dimension; normalize the query copy when the metric is cosine
(`keepNormalized`); default `k ≤ 0` to 10 and cap `k` at the total number
of stored entries (soft-deleted included); score, threshold, sort, and
truncate. -/
def LinearIndexSearch (sqrt exp : ℚ → ℚ) (metric : DistanceMetric) (dimension : ℕ)
    (vectors : List MVector) (query : List ℚ) (k : ℤ)
    (filter : Option (MVector → Bool)) (params : Option SearchParams) :
    Except String (List SearchResult) :=
  if query.length ≠ dimension then
    Except.error "query dimension does not match index dimension"
  else
    let queryCopy := if metric = DistanceMetric.Cosine then NormalizeVector sqrt query
      else query
    let k₁ : ℤ := if k ≤ 0 then 10 else k
    let k₂ : ℤ := if (vectors.length : ℤ) < k₁ then (vectors.length : ℤ) else k₁
    Except.ok (searchTruncate k₂
      (searchSorted metric (scoredSurvivors sqrt exp metric vectors queryCopy
        filter params)))

/-- The sort phase emits a list sorted best-first: by descending raw
distance for similarity metrics. -/
theorem searchSorted_pairwise_hi (metric : DistanceMetric)
    (h : IsHigherBetter metric = true) (l : List SearchResult) :
    List.Pairwise (fun a b => b.distance ≤ a.distance) (searchSorted metric l) := by
  rw [searchSorted, if_pos h]
  haveI : IsTotal SearchResult (fun a b => b.distance ≤ a.distance) :=
    ⟨fun a b => le_total b.distance a.distance⟩
  haveI : IsTrans SearchResult (fun a b => b.distance ≤ a.distance) :=
    ⟨fun _ _ _ hab hbc => le_trans hbc hab⟩
  exact List.sorted_insertionSort _ l

/-- The sort phase emits a list sorted best-first: by ascending raw
distance for distance metrics. -/
theorem searchSorted_pairwise_lo (metric : DistanceMetric)
    (h : IsHigherBetter metric = false) (l : List SearchResult) :
    List.Pairwise (fun a b => a.distance ≤ b.distance) (searchSorted metric l) := by
  rw [searchSorted, if_neg (by simp [h])]
  haveI : IsTotal SearchResult (fun a b => a.distance ≤ b.distance) :=
    ⟨fun a b => le_total a.distance b.distance⟩
  haveI : IsTrans SearchResult (fun a b => a.distance ≤ b.distance) :=
    ⟨fun _ _ _ hab hbc => le_trans hab hbc⟩
  exact List.sorted_insertionSort _ l

/-- Sorting does not change the number of results. -/
theorem searchSorted_length (metric : DistanceMetric) (l : List SearchResult) :
    (searchSorted metric l).length = l.length := by
  rw [searchSorted]
  by_cases h : IsHigherBetter metric = true
  · rw [if_pos h]
    exact (List.perm_insertionSort _ _).length_eq
  · rw [if_neg h]
    exact (List.perm_insertionSort _ _).length_eq

/-- Truncation takes exactly `min k length` results for `k ≥ 0`. -/
theorem searchTruncate_length (k : ℤ) (hk : 0 ≤ k) (l : List SearchResult) :
    (searchTruncate k l).length = min k.toNat l.length := by
  rw [searchTruncate]
  by_cases h : k < (l.length : ℤ)
  · rw [if_pos h, List.length_take]
  · rw [if_neg h]
    omega

/-- Truncation preserves any pairwise order. -/
theorem searchTruncate_pairwise {p : SearchResult → SearchResult → Prop} (k : ℤ)
    {l : List SearchResult} (h : List.Pairwise p l) :
    List.Pairwise p (searchTruncate k l) := by
  rw [searchTruncate]
  by_cases hk : k < (l.length : ℤ)
  · rw [if_pos hk]
    exact h.sublist (List.take_sublist _ _)
  · rw [if_neg hk]
    exact h

/-- The surviving candidates never outnumber the stored entries. -/
theorem scoredSurvivors_length_le (sqrt exp : ℚ → ℚ) (metric : DistanceMetric)
    (vectors : List MVector) (queryCopy : List ℚ)
    (filter : Option (MVector → Bool)) (params : Option SearchParams) :
    (scoredSurvivors sqrt exp metric vectors queryCopy filter params).length ≤
      vectors.length := by
  rw [scoredSurvivors]
  refine (List.length_filter_le _ _).trans ?_
  rw [List.length_map]
  exact List.length_filter_le _ _

/-- C3 (amended): on a dimension-correct search over any index state, the
result is ordered best-first — descending raw value for similarity
metrics, ascending for distance metrics — and, with `m` the number of
stored vectors that are live, pass the filter and clear the score
threshold, holds exactly `min(k, m)` entries when `k ≥ 1`; a
non-positive `k` is defaulted to 10, yielding `min(10, m)` entries
rather than the 0 the claim states for `k = 0`. -/
theorem linearSearch_sorted_count (sqrt exp : ℚ → ℚ) (metric : DistanceMetric)
    (dimension : ℕ) (vectors : List MVector) (query : List ℚ) (k : ℤ)
    (filter : Option (MVector → Bool)) (params : Option SearchParams)
    (hq : query.length = dimension) :
    ∃ res, LinearIndexSearch sqrt exp metric dimension vectors query k filter params =
        Except.ok res ∧
      (IsHigherBetter metric = true →
        List.Pairwise (fun a b => b.distance ≤ a.distance) res) ∧
      (IsHigherBetter metric = false →
        List.Pairwise (fun a b => a.distance ≤ b.distance) res) ∧
      (1 ≤ k → res.length = min k.toNat
        (scoredSurvivors sqrt exp metric vectors
          (if metric = DistanceMetric.Cosine then NormalizeVector sqrt query else query)
          filter params).length) ∧
      (k ≤ 0 → res.length = min 10
        (scoredSurvivors sqrt exp metric vectors
          (if metric = DistanceMetric.Cosine then NormalizeVector sqrt query else query)
          filter params).length) := by
  rw [LinearIndexSearch, if_neg (not_ne_iff.mpr hq)]
  set queryCopy := if metric = DistanceMetric.Cosine then NormalizeVector sqrt query
    else query with hqc
  set k₁ : ℤ := if k ≤ 0 then 10 else k with hk₁
  set k₂ : ℤ := if (vectors.length : ℤ) < k₁ then (vectors.length : ℤ) else k₁ with hk₂
  set results := scoredSurvivors sqrt exp metric vectors queryCopy filter params
    with hresults
  have hk₁pos : 0 < k₁ := by
    rw [hk₁]
    by_cases h : k ≤ 0
    · rw [if_pos h]
      omega
    · rw [if_neg h]
      omega
  have hk₂pos : 0 ≤ k₂ := by
    rw [hk₂]
    by_cases h : (vectors.length : ℤ) < k₁
    · rw [if_pos h]
      omega
    · rw [if_neg h]
      omega
  have hm : results.length ≤ vectors.length :=
    scoredSurvivors_length_le sqrt exp metric vectors queryCopy filter params
  have hsortlen : (searchSorted metric results).length = results.length :=
    searchSorted_length metric results
  have hlen : (searchTruncate k₂ (searchSorted metric results)).length =
      min k₂.toNat results.length := by
    rw [searchTruncate_length k₂ hk₂pos, hsortlen]
  refine ⟨searchTruncate k₂ (searchSorted metric results), rfl, ?_, ?_, ?_, ?_⟩
  · intro h
    exact searchTruncate_pairwise k₂ (searchSorted_pairwise_hi metric h results)
  · intro h
    exact searchTruncate_pairwise k₂ (searchSorted_pairwise_lo metric h results)
  · intro hk
    rw [hlen]
    have hk₁k : k₁ = k := by
      rw [hk₁, if_neg (by omega)]
    rw [hk₂, hk₁k]
    by_cases h : (vectors.length : ℤ) < k
    · rw [if_pos h]
      omega
    · rw [if_neg h]
  · intro hk
    rw [hlen]
    have hk₁10 : k₁ = 10 := by
      rw [hk₁, if_pos hk]
    rw [hk₂, hk₁10]
    by_cases h : (vectors.length : ℤ) < 10
    · rw [if_pos h]
      omega
    · rw [if_neg h]
      omega

/-- A single live stored vector. -/
def cexVec : MVector := { id := "a", values := [0], deleted := false }

/-- C3 counterexample: a Manhattan-metric index holding one live vector,
searched with a matching one-dimensional query and `k = 0`, returns one
result — the code defaults `k ≤ 0` to 10 — whereas the claim demands
`min(0, 1) = 0` entries. -/
theorem linearSearch_k_zero_cex :
    (LinearIndexSearch (fun _ => 0) (fun _ => 0) DistanceMetric.Manhattan 1
        [cexVec] [0] 0 none none).map List.length = Except.ok 1 ∧
      (1 : ℕ) ≠ min 0 1 := by
  refine ⟨?_, by decide⟩
  rfl

/-- C3 witness: the amended theorem instantiated on a two-vector
Manhattan index with `k = 1`. -/
theorem linearSearch_sorted_count_witness :
    ([(0 : ℚ)].length = 1) ∧
      (∃ res, LinearIndexSearch (fun _ => 0) (fun _ => 0) DistanceMetric.Manhattan 1
          [cexVec, { id := "b", values := [5], deleted := false }] [(0 : ℚ)] 1
          none none = Except.ok res ∧
        (IsHigherBetter DistanceMetric.Manhattan = true →
          List.Pairwise (fun a b => b.distance ≤ a.distance) res) ∧
        (IsHigherBetter DistanceMetric.Manhattan = false →
          List.Pairwise (fun a b => a.distance ≤ b.distance) res) ∧
        (1 ≤ (1 : ℤ) → res.length = min (1 : ℤ).toNat
          (scoredSurvivors (fun _ => 0) (fun _ => 0) DistanceMetric.Manhattan
            [cexVec, { id := "b", values := [5], deleted := false }]
            (if DistanceMetric.Manhattan = DistanceMetric.Cosine then
              NormalizeVector (fun _ => 0) [(0 : ℚ)] else [(0 : ℚ)])
            none none).length) ∧
        ((1 : ℤ) ≤ 0 → res.length = min 10
          (scoredSurvivors (fun _ => 0) (fun _ => 0) DistanceMetric.Manhattan
            [cexVec, { id := "b", values := [5], deleted := false }]
            (if DistanceMetric.Manhattan = DistanceMetric.Cosine then
              NormalizeVector (fun _ => 0) [(0 : ℚ)] else [(0 : ℚ)])
            none none).length)) :=
  ⟨rfl, linearSearch_sorted_count (fun _ => 0) (fun _ => 0) DistanceMetric.Manhattan 1
    [cexVec, { id := "b", values := [5], deleted := false }] [(0 : ℚ)] 1 none none rfl⟩
